import Mathlib

/-!
Verification of the core search engine of `atom-livegrep`.

Shallow embedding of the Rust sources:
  * `src/server/src/search.rs` — `DirectMatcher`, the `Collector` sink, the
    parallel walk (`search`) and the orchestrator (`find`);
  * `src/src/res.rs` — the `ContentLine` truncation logic of the top-level crate.

Bytes are modelled as `Nat` (every value produced stays below 256; no byte
arithmetic overflows occur in the embedded code).  Strings cross into byte
land through an explicit UTF-8 encoder.  Fallible Rust code (`Result`) is
modelled with `Except`.

Components that belong to the repository or to its pinned dependencies but
whose sources are not under `src/` (the server's `result` module, the `ext`
extension tables, the `grep-searcher` line scanner) are modelled from the
spec; each such definition carries a doc comment starting with
`Modelled from the spec:`.
-/

/-! ### Byte helpers (model of the `u8` operations used by `search.rs`) -/

/-- Model of Rust `u8::to_ascii_lowercase`: fold `A`-`Z` (65..90) to `a`-`z`. -/
def toAsciiLowerByte (b : Nat) : Nat :=
  if 65 ≤ b && b ≤ 90 then b + 32 else b

/-- Model of `<[u8]>::eq_ignore_ascii_case`: equal lengths and pointwise
ASCII-case-folded equality. -/
def eqIgnoreAsciiCase (a b : List Nat) : Bool :=
  a.length == b.length &&
    (a.zip b).all fun p => toAsciiLowerByte p.1 == toAsciiLowerByte p.2

/-- Continuation byte test for UTF-8: `0x80 ≤ b ≤ 0xBF`. -/
def isUtf8Cont (b : Nat) : Bool :=
  0x80 ≤ b && b ≤ 0xBF

/-- Model of Rust `std::str::from_utf8` validity (RFC 3629): leading byte
ranges with the exact continuation-byte windows that exclude overlong forms
and surrogates. -/
def utf8Valid : List Nat → Bool
  | [] => true
  | b :: rest =>
    if b < 0x80 then utf8Valid rest
    else if 0xC2 ≤ b && b ≤ 0xDF then
      match rest with
      | c1 :: rest1 => isUtf8Cont c1 && utf8Valid rest1
      | [] => false
    else if b == 0xE0 then
      match rest with
      | c1 :: c2 :: rest2 =>
        (0xA0 ≤ c1 && c1 ≤ 0xBF) && isUtf8Cont c2 && utf8Valid rest2
      | _ => false
    else if (0xE1 ≤ b && b ≤ 0xEC) || b == 0xEE || b == 0xEF then
      match rest with
      | c1 :: c2 :: rest2 => isUtf8Cont c1 && isUtf8Cont c2 && utf8Valid rest2
      | _ => false
    else if b == 0xED then
      match rest with
      | c1 :: c2 :: rest2 =>
        (0x80 ≤ c1 && c1 ≤ 0x9F) && isUtf8Cont c2 && utf8Valid rest2
      | _ => false
    else if b == 0xF0 then
      match rest with
      | c1 :: c2 :: c3 :: rest3 =>
        (0x90 ≤ c1 && c1 ≤ 0xBF) && isUtf8Cont c2 && isUtf8Cont c3 && utf8Valid rest3
      | _ => false
    else if 0xF1 ≤ b && b ≤ 0xF3 then
      match rest with
      | c1 :: c2 :: c3 :: rest3 =>
        isUtf8Cont c1 && isUtf8Cont c2 && isUtf8Cont c3 && utf8Valid rest3
      | _ => false
    else if b == 0xF4 then
      match rest with
      | c1 :: c2 :: c3 :: rest3 =>
        (0x80 ≤ c1 && c1 ≤ 0x8F) && isUtf8Cont c2 && isUtf8Cont c3 && utf8Valid rest3
      | _ => false
    else
      false

/-- Standard UTF-8 encoding of one scalar value (1 to 4 bytes). -/
def utf8EncodeCharNat (c : Char) : List Nat :=
  let n := c.toNat
  if n < 0x80 then [n]
  else if n < 0x800 then [0xC0 + n / 64, 0x80 + n % 64]
  else if n < 0x10000 then
    [0xE0 + n / 4096, 0x80 + (n / 64) % 64, 0x80 + n % 64]
  else
    [0xF0 + n / 262144, 0x80 + (n / 4096) % 64, 0x80 + (n / 64) % 64, 0x80 + n % 64]

/-- Model of Rust `str::as_bytes`: UTF-8 byte list of a string. -/
def strBytes (s : String) : List Nat :=
  (s.data.map utf8EncodeCharNat).flatten

/-- Model of Rust `char::is_lowercase` (the Unicode `Lowercase` property).
The table is exact on ASCII and Latin-1 — `a`-`z`, `ª` (U+00AA), `µ` (U+00B5),
`º` (U+00BA), `ß`-`ö` (U+00DF-U+00F6) and `ø`-`ÿ` (U+00F8-U+00FF) — which
covers every character appearing in this development; characters above U+00FF
are mapped to `false`. -/
def rustIsLowercase (c : Char) : Bool :=
  let n := c.toNat
  (97 ≤ n && n ≤ 122) || n == 0xAA || n == 0xB5 || n == 0xBA ||
    (0xDF ≤ n && n ≤ 0xF6) || (0xF8 ≤ n && n ≤ 0xFF)

/-- Model of Rust `char::is_ascii_punctuation`:
`!`-`/`, `:`-`@`, `[`-`` ` ``, `{`-`~`. -/
def rustIsAsciiPunct (c : Char) : Bool :=
  let n := c.toNat
  (0x21 ≤ n && n ≤ 0x2F) || (0x3A ≤ n && n ≤ 0x40) ||
    (0x5B ≤ n && n ≤ 0x60) || (0x7B ≤ n && n ≤ 0x7E)

/-! ### Errors (model of `errors::Error` as used by `search.rs`) -/

/-- Error values surfaced by the embedded code: UTF-8 validation failure in
the matcher, a per-file read failure, and invalid orchestrator input. -/
inductive SearchErr where
  | encoding
  | ioFail
  | invalid
deriving DecidableEq, Repr

/-! ### DirectMatcher (`search.rs` lines 26-87) -/

/-- Model of `DirectMatcher` (`search.rs`): literal substring matcher. -/
structure DirectMatcher where
  is_ascii : Bool
  match_lowercase : Bool
  pattern : List Nat
deriving DecidableEq, Repr

/-- Model of `DirectMatcher::new`: `is_ascii` from `str::is_ascii`,
`match_lowercase` from the smart-case rule
`case_smart && pattern.chars().all(|c| c.is_lowercase() || c.is_ascii_punctuation())`. -/
def DirectMatcher.new (pattern : String) (case_smart : Bool) : DirectMatcher :=
  { is_ascii := pattern.data.all fun c => c.toNat < 0x80
    match_lowercase :=
      case_smart && pattern.data.all fun c => rustIsLowercase c || rustIsAsciiPunct c
    pattern := strBytes pattern }

/-- First index `i < bound` at which `p` occurs as a byte slice of `h`
(`h[i..i+plen] == p`); model of the naive scan loops of `find_at`. -/
def firstOccurIdx (p h : List Nat) (bound : Nat) : Option Nat :=
  (List.range bound).find? fun i => decide (p = (h.drop i).take p.length)

/-- First index `i < bound` at which `p` occurs ASCII-case-folded. -/
def firstFoldIdx (p h : List Nat) (bound : Nat) : Option Nat :=
  (List.range bound).find? fun i => eqIgnoreAsciiCase p ((h.drop i).take p.length)

/-- Model of `DirectMatcher::find_at` (`search.rs` lines 53-82).  The
non-ASCII smart-case branch validates both sides as UTF-8 (`from_utf8`,
failing with `Encoding`) and then runs Rust `str::find`, which — because a
valid UTF-8 sequence can only occur at a character boundary inside valid
UTF-8 (continuation bytes never start a character) — returns the first
byte-level occurrence of the pattern bytes; it performs no case folding. -/
def DirectMatcher.find_at (m : DirectMatcher) (haystack : List Nat) :
    Except SearchErr (Option (Nat × Nat)) :=
  let plen := m.pattern.length
  let hlen := haystack.length
  if plen > hlen then Except.ok none
  else if m.match_lowercase then
    if m.is_ascii then
      Except.ok ((firstFoldIdx m.pattern haystack (hlen - plen + 1)).map
        fun i => (i, i + plen))
    else
      if utf8Valid m.pattern then
        if utf8Valid haystack then
          Except.ok ((firstOccurIdx m.pattern haystack (hlen - plen + 1)).map
            fun i => (i, i + plen))
        else Except.error SearchErr.encoding
      else Except.error SearchErr.encoding
  else
    Except.ok ((firstOccurIdx m.pattern haystack (hlen - plen + 1)).map
      fun i => (i, i + plen))

/-- Model of `MatcherSpec::is_match` on the direct-matcher side
(`search.rs` lines 135-142): any error is collapsed to `false` by
`unwrap_or(false)`. -/
def DirectMatcher.is_match (m : DirectMatcher) (haystack : List Nat) : Bool :=
  match m.find_at haystack with
  | Except.ok (some _) => true
  | _ => false

/-! ### Result data model -/

/-- Model of `ContentKind` (`res.rs` / server `result` module). -/
inductive ContentKind where
  | Before
  | Match
  | After
deriving DecidableEq, Repr

/-- Modelled from the spec: the server crate's `result::ContentLine`
(§3 of the spec; the server's `result.rs` source is not under `src/`):
`{kind, line_number, bytes (truncated blob), truncated, match_start,
match_end}`.  Spec invariant 2 gives the truncation rule; §4.3 says the
match-position fields keep the pre-truncation offsets only when the match
falls entirely within the preserved prefix. -/
structure SContentLine where
  kind : ContentKind
  num : Nat
  bytes : List Nat
  truncated : Bool
  match_start : Option Nat
  match_end : Option Nat
deriving DecidableEq, Repr

/-- Modelled from the spec: constructor of the server `result::ContentLine`
(called `ContentLine::new(kind, line_number, bytes, start, end)` in
`search.rs`); truncation per spec invariant 2, bound clearing per §4.3. -/
def SContentLine.new (kind : ContentKind) (num : Nat) (bytes : List Nat)
    (s e : Option Nat) : SContentLine :=
  if bytes.length > 140 then
    let keepBounds :=
      match s, e with
      | some s0, some e0 => if e0 ≤ 120 then (some s0, some e0) else (none, none)
      | _, _ => ((none : Option Nat), (none : Option Nat))
    { kind := kind, num := num
      bytes := bytes.take 120 ++ [46, 46, 46] ++ bytes.drop (bytes.length - 17)
      truncated := true
      match_start := keepBounds.1, match_end := keepBounds.2 }
  else
    { kind := kind, num := num, bytes := bytes, truncated := false
      match_start := s, match_end := e }

/-- Modelled from the spec: `result::ContentLine::without_match` — a context
line carries no match bounds. -/
def SContentLine.without_match (kind : ContentKind) (num : Nat)
    (bytes : List Nat) : SContentLine :=
  SContentLine.new kind num bytes none none

/-- Model of `ContentMatch`: one group of context and match lines. -/
structure ContentMatch where
  lines : List SContentLine
deriving DecidableEq, Repr

/-- Model of `ContentItem` (a `ContentHit` of the spec): one record per file
that had content matches. -/
structure ContentItem where
  path : String
  ext : String
  matches' : List ContentMatch
deriving DecidableEq, Repr

/-- Model of `FileItem` (a `FileHit` of the spec). -/
structure FileItem where
  path : String
  ext : String
deriving DecidableEq, Repr

/-- Model of `Matched` (`res.rs` lines 113-119). -/
inductive Matched where
  | Exact (n : Nat)
  | AtLeast (n : Nat)
deriving DecidableEq, Repr

/-- Model of `SearchResult` restricted to the fields the claims are about
(the wall-clock `exec_time` and the `cached` flag carry no verifiable
content). -/
structure SearchResult where
  files : List FileItem
  file_matches : Matched
  content : List ContentItem
  content_matches : Matched
deriving DecidableEq, Repr

/-! ### `res.rs` ContentLine (top-level crate, `src/src/res.rs` lines 35-71) -/

namespace Res

/-- `MAX_PREFIX_LENGTH` of `res.rs`. -/
def MAX_PREFIX_LENGTH : Nat := 120

/-- `MAX_SUFFIX_LENGTH` of `res.rs`. -/
def MAX_SUFFIX_LENGTH : Nat := 17

/-- `MAX_LENGTH = MAX_PREFIX_LENGTH + MAX_SUFFIX_LENGTH + 3` of `res.rs`. -/
def MAX_LENGTH : Nat := MAX_PREFIX_LENGTH + MAX_SUFFIX_LENGTH + 3

/-- Model of `res.rs` `ContentLine`. -/
structure ContentLine where
  kind : ContentKind
  num : Nat
  bytes : List Nat
  truncated : Bool
deriving DecidableEq, Repr

/-- Model of `res.rs` `ContentLine::new` (lines 49-71): keeps the bytes
verbatim when `len < MAX_LENGTH`, otherwise stores
`bytes[..120] ++ "..." ++ bytes[len-17..]` (`46` is the byte of `.`). -/
def ContentLine.new (kind : ContentKind) (line_number : Nat)
    (bytes : List Nat) : ContentLine :=
  if bytes.length < MAX_LENGTH then
    { kind := kind, num := line_number, bytes := bytes, truncated := false }
  else
    { kind := kind, num := line_number
      bytes := bytes.take MAX_PREFIX_LENGTH ++ [46, 46, 46] ++
        bytes.drop (bytes.length - MAX_SUFFIX_LENGTH)
      truncated := true }

end Res

/-! ### Collector (`search.rs` lines 145-254) -/

/-- `FILE_MAX_MATCHES` (`search.rs` line 19), the spec's `FILE_CAP`. -/
def FILE_MAX_MATCHES : Nat := 10

/-- `CONTENT_MAX_MATCHES` (`search.rs` line 21), the spec's `CONTENT_CAP`. -/
def CONTENT_MAX_MATCHES : Nat := 100

/-- `CONTEXT_NUM_LINES` (`search.rs` line 23), the context width `K`. -/
def CONTEXT_NUM_LINES : Nat := 2

/-- Modelled from the spec (§4.2): the sink events delivered by the
`grep-searcher` line scanner, an external dependency whose source is not in
this repository. -/
inductive SinkEvent where
  | matched (num : Nat) (bytes : List Nat)
  | context (kind : ContentKind) (num : Nat) (bytes : List Nat)
  | contextBreak
deriving DecidableEq, Repr

/-- State of a `Collector` (`search.rs` lines 147-156).  The shared atomic
content counter (`Arc<AtomicUsize>`) is carried as a plain field of the
per-file state. -/
structure CollSt where
  counter : Nat
  path : String
  ext : String
  lines : List SContentLine
  matches' : List ContentMatch
deriving DecidableEq, Repr

/-- Model of `Collector::flush_lines` (lines 178-187): popping every element
of the `lines` vector yields them in reverse order and the final `reverse()`
restores insertion order, so the new `ContentMatch` holds `lines` as-is. -/
def flushLines (st : CollSt) : CollSt :=
  let match_lines := st.lines.reverse.reverse
  { st with lines := [], matches' := st.matches' ++ [ContentMatch.mk match_lines] }

/-- Model of the `Sink` implementation for `Collector` (lines 189-237), run
over a list of scanner events.  `matched` increments the shared counter,
re-runs the matcher on the line to locate the match (propagating its error —
in the source this surfaces through `search_path`), and appends a `Match`
line; `context` appends a `Before`/`After` line; `context_break` returns
`false` (stop scanning this file, remaining events dropped) once the counter
exceeds `CONTENT_MAX_MATCHES`, otherwise flushes any pending lines. -/
def collectorRun (m : DirectMatcher) : CollSt → List SinkEvent → Except SearchErr CollSt
  | st, [] => Except.ok st
  | st, SinkEvent.matched num bytes :: rest =>
    let st1 := { st with counter := st.counter + 1 }
    match m.find_at bytes with
    | Except.error er => Except.error er
    | Except.ok loc =>
      let line := SContentLine.new ContentKind.Match num bytes
        (loc.map Prod.fst) (loc.map Prod.snd)
      collectorRun m { st1 with lines := st1.lines ++ [line] } rest
  | st, SinkEvent.context kind num bytes :: rest =>
    collectorRun m
      { st with lines := st.lines ++ [SContentLine.without_match kind num bytes] } rest
  | st, SinkEvent.contextBreak :: rest =>
    if st.counter > CONTENT_MAX_MATCHES then Except.ok st
    else if st.lines.isEmpty then collectorRun m st rest
    else collectorRun m (flushLines st) rest

/-- Model of `Collector::finish` (lines 239-253): flush pending lines, and if
any match group was produced, emit one `ContentItem`; popping then reversing
the `matches` vector keeps file order. -/
def collectorFinish (st : CollSt) : CollSt × Option ContentItem :=
  let st1 := if st.lines.isEmpty then st else flushLines st
  if st1.matches'.isEmpty then (st1, none)
  else (st1, some (ContentItem.mk st1.path st1.ext (st1.matches'.reverse.reverse)))

/-! ### Line scanner (modelled from the spec, §4.2) -/

/-- Flag of line `i` (0-based) — `false` beyond the file. -/
def flagAt (flags : List Bool) (i : Nat) : Bool :=
  flags.getD i false

/-- Modelled from the spec: per-line match flags.  The scanner decides that a
line matches by running the matcher on it, so a matcher error (invalid UTF-8
on the non-ASCII smart-case path) fails the scan of the whole file. -/
def lineFlags (m : DirectMatcher) : List (List Nat) → Except SearchErr (List Bool)
  | [] => Except.ok []
  | l :: rest =>
    match m.find_at l with
    | Except.error er => Except.error er
    | Except.ok loc =>
      match lineFlags m rest with
      | Except.error er => Except.error er
      | Except.ok fs => Except.ok (loc.isSome :: fs)

/-- Modelled from the spec (§4.2): a line is emitted when it matches or lies
within `K = CONTEXT_NUM_LINES = 2` lines of a matching line. -/
def isRelevant (flags : List Bool) (i : Nat) : Bool :=
  flagAt flags i || flagAt flags (i + 1) || flagAt flags (i + 2) ||
    (decide (1 ≤ i) && flagAt flags (i - 1)) ||
    (decide (2 ≤ i) && flagAt flags (i - 2))

/-- Modelled from the spec (§4.2): a non-matching emitted line is `After`
context when a match lies at most `K` lines above it, else `Before` context. -/
def contextKindAt (flags : List Bool) (i : Nat) : ContentKind :=
  if (decide (1 ≤ i) && flagAt flags (i - 1)) ||
      (decide (2 ≤ i) && flagAt flags (i - 2)) then ContentKind.After
  else ContentKind.Before

/-- Modelled from the spec (§4.2): walk the (0-based) line indices in order,
emitting `matched`/`context` events for relevant lines and a `contextBreak`
between non-contiguous relevant regions; `seen` records whether an earlier
region exists. -/
def eventsAux (lines : List (List Nat)) (flags : List Bool) :
    Bool → List Nat → List SinkEvent
  | _, [] => []
  | seen, i :: rest =>
    if isRelevant flags i then
      let ev : SinkEvent :=
        if flagAt flags i then SinkEvent.matched (i + 1) (lines.getD i [])
        else SinkEvent.context (contextKindAt flags i) (i + 1) (lines.getD i [])
      let stepEvs :=
        if seen && !(decide (1 ≤ i) && isRelevant flags (i - 1)) then
          [SinkEvent.contextBreak, ev]
        else [ev]
      stepEvs ++ eventsAux lines flags true rest
    else eventsAux lines flags seen rest

/-- Modelled from the spec (§4.2): the event stream of one file. -/
def eventsFrom (lines : List (List Nat)) (flags : List Bool) : List SinkEvent :=
  eventsAux lines flags false (List.range lines.length)

/-- Modelled from the spec (§4.2/§4.3): `Searcher::search_path` of the
`grep-searcher` crate driving a fresh `Collector` over one file.  The file
content is `Except.error` when the file cannot be read (the per-file I/O
failure); any error — I/O or matcher encoding — aborts this file's scan with
`Except.error`, exactly as `search_path` returns `Err` in the source.
Returns the updated shared content counter and the emitted item, if any. -/
def scanPath (m : DirectMatcher) (path ext : String) (counter0 : Nat)
    (content : Except SearchErr (List (List Nat))) :
    Except SearchErr (Nat × Option ContentItem) :=
  match content with
  | Except.error er => Except.error er
  | Except.ok lines =>
    match lineFlags m lines with
    | Except.error er => Except.error er
    | Except.ok flags =>
      match collectorRun m
        { counter := counter0, path := path, ext := ext, lines := [], matches' := [] }
        (eventsFrom lines flags) with
      | Except.error er => Except.error er
      | Except.ok st =>
        let finished := collectorFinish st
        Except.ok (finished.1.counter, finished.2)

/-! ### Parallel walk (`search.rs` lines 358-437), sequential model -/

/-- One filesystem entry handed to a worker.  `ext` is the parsed extension
tag and `extSupported` the verdict of the external `Extensions` table
(modelled from the spec: the `ext` module is not under `src/`; the walk only
consumes `is_supported_extension`).  `content` is the line list of the file,
or `Except.error` when reading it fails. -/
structure Entry where
  fname : String
  fpath : String
  ext : String
  extSupported : Bool
  content : Except SearchErr (List (List Nat))

/-- Shared state of the walk: the two atomic counters and the two result
channels, drained in order.  The source's parallel walk is modelled
sequentially — every claim below is about per-entry effects or about counts
that are order-independent. -/
structure WalkSt where
  file_counter : Nat
  content_counter : Nat
  fileItems : List FileItem
  contentItems : List ContentItem
deriving DecidableEq, Repr

/-- Initial walk state: both counters zero, both channels empty. -/
def initSt : WalkSt :=
  { file_counter := 0, content_counter := 0, fileItems := [], contentItems := [] }

/-- Model of the filename check (`search.rs` lines 400-405):
`fetch_add(1, Relaxed)` returns the previous value; a `FileItem` is sent
exactly when that previous value is `<= FILE_MAX_MATCHES`. -/
def fileStep (m : DirectMatcher) (st : WalkSt) (e : Entry) : WalkSt :=
  if m.is_match (strBytes e.fname) then
    let prev := st.file_counter
    let st1 := { st with file_counter := st.file_counter + 1 }
    if prev ≤ FILE_MAX_MATCHES then
      { st1 with fileItems := st1.fileItems ++ [FileItem.mk e.fpath e.ext] }
    else st1
  else st

/-- Model of the content check (`search.rs` lines 407-425): when the
extension is supported and the current content counter is
`<= CONTENT_MAX_MATCHES`, a `Collector` is built and the searcher is run over
the file.  The source calls `searcher.search_path(...).unwrap()`, so a
per-file `Err` (unreadable file, encoding failure in the matcher) panics the
worker thread; the model surfaces that panic as `Except.error`, i.e. the
search does not produce a report. -/
def contentStep (m : DirectMatcher) (st : WalkSt) (e : Entry) :
    Except SearchErr WalkSt :=
  if e.extSupported then
    if st.content_counter ≤ CONTENT_MAX_MATCHES then
      match scanPath m e.fpath e.ext st.content_counter e.content with
      | Except.ok res =>
        Except.ok { st with content_counter := res.1
                            contentItems := st.contentItems ++ res.2.toList }
      | Except.error er => Except.error er
    else Except.ok st
  else Except.ok st

/-- Model of the cooperative-termination check (`search.rs` lines 429-434):
`true` means the worker returns `WalkState::Quit`. -/
def quitStep (st : WalkSt) : Bool :=
  decide (st.file_counter > FILE_MAX_MATCHES) &&
    decide (st.content_counter > CONTENT_MAX_MATCHES)

/-- One worker callback (`search.rs` lines 386-435): filename check, content
check, then the quit check. -/
def processEntry (m : DirectMatcher) (st : WalkSt) (e : Entry) :
    Except SearchErr (WalkSt × Bool) :=
  match contentStep m (fileStep m st e) e with
  | Except.error er => Except.error er
  | Except.ok st2 => Except.ok (st2, quitStep st2)

/-- Model of `search` (`search.rs` lines 358-437): process entries in order;
a `Quit` verdict stops scheduling further entries. -/
def runSearch (m : DirectMatcher) : WalkSt → List Entry → Except SearchErr WalkSt
  | st, [] => Except.ok st
  | st, e :: rest =>
    match processEntry m st e with
    | Except.error er => Except.error er
    | Except.ok step =>
      if step.2 then Except.ok step.1 else runSearch m step.1 rest

/-- Modelled from the spec (§4.4, for comparison with `runSearch`): the same
walk with no early termination — every entry is processed. -/
def runAll (m : DirectMatcher) : WalkSt → List Entry → Except SearchErr WalkSt
  | st, [] => Except.ok st
  | st, e :: rest =>
    match processEntry m st e with
    | Except.error er => Except.error er
    | Except.ok step => runAll m step.1 rest

/-- Model of `find` (`search.rs` lines 257-356) for literal patterns
(`use_regex = false`, the mode every claim below is about): validate the
pattern, build the `DirectMatcher` with `case_smart = true`, run the walk,
then assemble the report — `file_matches` / `content_matches` are
`Exact(len)` when the drained channel's length is within the cap and
`AtLeast(len)` otherwise (`search.rs` lines 333-343). -/
def find (pattern : String) (entries : List Entry) :
    Except SearchErr SearchResult :=
  if pattern.length == 0 then Except.error SearchErr.invalid
  else
    match runSearch (DirectMatcher.new pattern true) initSt entries with
    | Except.error er => Except.error er
    | Except.ok st =>
      let file_matches :=
        if st.fileItems.length ≤ FILE_MAX_MATCHES then
          Matched.Exact st.fileItems.length
        else Matched.AtLeast st.fileItems.length
      let content_matches :=
        if st.contentItems.length ≤ CONTENT_MAX_MATCHES then
          Matched.Exact st.contentItems.length
        else Matched.AtLeast st.contentItems.length
      Except.ok (SearchResult.mk st.fileItems file_matches st.contentItems
        content_matches)

/-! ### Spec-side comparison definitions -/

/-- Case-sensitive first-occurrence literal search, as the claims' words
("matched case-sensitively"): byte-window scan, first occurrence. -/
def caseSensitiveFind (p h : List Nat) : Option (Nat × Nat) :=
  if p.length > h.length then none
  else (firstOccurIdx p h (h.length - p.length + 1)).map fun i => (i, i + p.length)

/-- ASCII-case-folded first-occurrence literal search, as the claims' words
("case-insensitive" in ASCII literal mode). -/
def asciiFoldFind (p h : List Nat) : Option (Nat × Nat) :=
  if p.length > h.length then none
  else (firstFoldIdx p h (h.length - p.length + 1)).map fun i => (i, i + p.length)

/-- Modelled from the spec: Unicode simple lowercase mapping, exact on ASCII
and Latin-1 (`A`-`Z` and `À`-`Þ` except `×` map 32 code points up); identity
elsewhere.  Used only to express the spec-mandated "lowercased forms". -/
def specToLower (c : Char) : Char :=
  let n := c.toNat
  if 65 ≤ n && n ≤ 90 then Char.ofNat (n + 32)
  else if (0xC0 ≤ n && n ≤ 0xD6) || (0xD8 ≤ n && n ≤ 0xDE) then Char.ofNat (n + 32)
  else c

/-- Modelled from the spec (§4.1): "UTF-8-aware substring search over
lowercased forms" — the byte position of the first occurrence of the
lowercased pattern inside the lowercased haystack. -/
def specLowercaseFind (p h : String) : Option Nat :=
  let pb := strBytes (String.mk (p.data.map specToLower))
  let hb := strBytes (String.mk (h.data.map specToLower))
  firstOccurIdx pb hb (hb.length - pb.length + 1)

/-! ### Concrete scenario inputs -/

/-- The S3 tree: one file `a.txt` containing `"Hello World\nhello world\n"`. -/
def entryA : Entry :=
  { fname := "a.txt", fpath := "a.txt", ext := "txt", extSupported := true
    content := Except.ok [strBytes "Hello World", strBytes "hello world"] }

/-- An unreadable file: the scanner's open/read fails with an I/O error. -/
def entryBad : Entry :=
  { fname := "bad.txt", fpath := "bad.txt", ext := "txt", extSupported := true
    content := Except.error SearchErr.ioFail }

/-- A readable file whose single line contains the pattern `"a"`. -/
def entryGood : Entry :=
  { fname := "good.txt", fpath := "good.txt", ext := "txt", extSupported := true
    content := Except.ok [strBytes "xa"] }

/-- An entry whose name matches any pattern containing `"a"`, with an
unsupported extension so only the filename path is exercised. -/
def entryNameHit : Entry :=
  { fname := "a.bin", fpath := "a.bin", ext := "bin", extSupported := false
    content := Except.ok [] }

/-- Walk state in which the file counter already reached `FILE_MAX_MATCHES`. -/
def stFileCap : WalkSt :=
  { file_counter := 10, content_counter := 0, fileItems := [], contentItems := [] }

/-- Walk state in which the content counter already reached
`CONTENT_MAX_MATCHES`. -/
def stContentCap : WalkSt :=
  { file_counter := 0, content_counter := 100, fileItems := [], contentItems := [] }

/-- A one-line file matching pattern `"a"`, used against `stContentCap`. -/
def entryOneLine : Entry :=
  { fname := "b.src", fpath := "b.src", ext := "src", extSupported := true
    content := Except.ok [strBytes "xa"] }

/-! ### Observation helpers -/

deriving instance DecidableEq for Except

/-- Line numbers of a list of content lines, in stored order. -/
def lineNums (ls : List SContentLine) : List Nat :=
  ls.map SContentLine.num

/-- Line numbers of one match group. -/
def matchNums (cm : ContentMatch) : List Nat :=
  lineNums cm.lines

/-- Every line number held by a collector state, in stored order: the
numbers inside the finished match groups followed by the pending lines. -/
def collNums (st : CollSt) : List Nat :=
  (st.matches'.map matchNums).flatten ++ lineNums st.lines

/-- The line numbers carried by a scanner event stream, in order. -/
def eventNums : List SinkEvent → List Nat
  | [] => []
  | SinkEvent.matched n _ :: rest => n :: eventNums rest
  | SinkEvent.context _ n _ :: rest => n :: eventNums rest
  | SinkEvent.contextBreak :: rest => eventNums rest

/-- First line number of a match group (`0` for an empty group, which the
collector never emits). -/
def firstLineNum (cm : ContentMatch) : Nat :=
  (matchNums cm).headD 0

/-! ### Helper lemmas -/

theorem SContentLine_new_num (k : ContentKind) (n : Nat) (b : List Nat)
    (s e : Option Nat) : (SContentLine.new k n b s e).num = n := by
  unfold SContentLine.new
  split <;> rfl

theorem occurIdx_lt_bound {p h : List Nat} {bound i : Nat}
    (hf : firstOccurIdx p h bound = some i) : i < bound :=
  List.mem_range.mp (List.mem_of_find?_eq_some hf)

theorem foldIdx_lt_bound {p h : List Nat} {bound i : Nat}
    (hf : firstFoldIdx p h bound = some i) : i < bound :=
  List.mem_range.mp (List.mem_of_find?_eq_some hf)

theorem map_pair_eq_some {o : Option Nat} {plen s e : Nat}
    (h : o.map (fun i => (i, i + plen)) = some (s, e)) :
    o = some s ∧ e = s + plen := by
  cases o with
  | none => simp at h
  | some i =>
    simp only [Option.map_some', Option.some.injEq, Prod.mk.injEq] at h
    exact ⟨by rw [h.1], by rw [← h.1, ← h.2]⟩

set_option maxRecDepth 8192

/-! ### Claims -/

/-- Claim C10: `DirectMatcher::find_at` is total and in-bounds — a pattern
longer than the haystack yields `Ok(None)` (the scan bound
`hlen - plen + 1` never underflows), every returned match `(s, e)` satisfies
`e = s + pattern length ≤ haystack length`, and the non-ASCII smart-case
branch returns an error (never panics) on invalid UTF-8. -/
theorem find_at_safety : ∀ (m : DirectMatcher) (h : List Nat),
    (m.pattern.length > h.length → m.find_at h = Except.ok none) ∧
    (∀ s e, m.find_at h = Except.ok (some (s, e)) →
      e = s + m.pattern.length ∧ e ≤ h.length) ∧
    (m.match_lowercase = true → m.is_ascii = false → utf8Valid h = false →
      m.pattern.length ≤ h.length → ∃ er, m.find_at h = Except.error er) := by
  intro m h
  refine ⟨?_, ?_, ?_⟩
  · intro hgt
    unfold DirectMatcher.find_at
    rw [if_pos hgt]
  · intro s e hok
    unfold DirectMatcher.find_at at hok
    by_cases hgt : m.pattern.length > h.length
    · rw [if_pos hgt] at hok
      exact absurd hok (by simp)
    · have hple : m.pattern.length ≤ h.length := Nat.le_of_not_lt hgt
      rw [if_neg hgt] at hok
      by_cases hml : m.match_lowercase
      · rw [if_pos hml] at hok
        by_cases hasc : m.is_ascii
        · rw [if_pos hasc] at hok
          have hmap := Except.ok.inj hok
          obtain ⟨hidx, he⟩ := map_pair_eq_some hmap
          have := foldIdx_lt_bound hidx
          exact ⟨he, by omega⟩
        · rw [if_neg hasc] at hok
          by_cases hpv : utf8Valid m.pattern
          · rw [if_pos hpv] at hok
            by_cases hhv : utf8Valid h
            · rw [if_pos hhv] at hok
              have hmap := Except.ok.inj hok
              obtain ⟨hidx, he⟩ := map_pair_eq_some hmap
              have := occurIdx_lt_bound hidx
              exact ⟨he, by omega⟩
            · rw [if_neg hhv] at hok
              exact absurd hok (by simp)
          · rw [if_neg hpv] at hok
            exact absurd hok (by simp)
      · rw [if_neg hml] at hok
        have hmap := Except.ok.inj hok
        obtain ⟨hidx, he⟩ := map_pair_eq_some hmap
        have := occurIdx_lt_bound hidx
        exact ⟨he, by omega⟩
  · intro hml hasc hval hple
    unfold DirectMatcher.find_at
    rw [if_neg (Nat.not_lt.mpr hple), if_pos (by rw [hml]), if_neg (by rw [hasc]; exact Bool.false_ne_true)]
    by_cases hpv : utf8Valid m.pattern
    · rw [if_pos hpv, if_neg (by rw [hval]; exact Bool.false_ne_true)]
      exact ⟨SearchErr.encoding, rfl⟩
    · rw [if_neg hpv]
      exact ⟨SearchErr.encoding, rfl⟩

/-- Witness for C10: a pattern longer than the haystack returns `Ok(None)`. -/
theorem find_at_safety_witness :
    (DirectMatcher.new "abc" true).find_at (strBytes "ab") = Except.ok none :=
  (find_at_safety (DirectMatcher.new "abc" true) (strBytes "ab")).1 (by decide)

/-- Claim C2 (code bug, acknowledged by spec §9.3): for the non-ASCII
all-lowercase literal pattern `"é"`, the matcher takes the smart-case branch
and both sides are validated as UTF-8 (invalid haystack bytes yield the
`Encoding` error, never a panic), but the match is Rust `str::find` — an
exact, case-sensitive search, NOT the spec-mandated search over lowercased
forms: on haystack `"É"` the code finds nothing while the lowercased forms
match at byte 0. -/
theorem nonascii_lowercase_divergence :
    (DirectMatcher.new "é" true).match_lowercase = true ∧
    (DirectMatcher.new "é" true).is_ascii = false ∧
    (DirectMatcher.new "é" true).find_at (strBytes "É") = Except.ok none ∧
    specLowercaseFind "é" "É" = some 0 ∧
    (DirectMatcher.new "é" true).find_at [255, 255] =
      Except.error SearchErr.encoding :=
  ⟨by decide, by decide, by decide, by decide, by decide⟩

/-- Counterexample for C1: on the S3 tree the code reports
`content_matches = Exact(1)` — the number of `ContentHit` records — not
`Exact(2)`. -/
theorem s3_content_matches_counterexample :
    (find "hello" [entryA]).toOption.map SearchResult.content_matches =
      some (Matched.Exact 1) ∧
    Matched.Exact 1 ≠ Matched.Exact 2 :=
  ⟨by decide, by decide⟩

/-- Claim C1 as amended: the S3 search yields one `ContentHit` for `a.txt`
holding one `ContentMatch` with two `Match` lines numbered 1 and 2 (both
located at bytes 0..5), and `content_matches = Exact(1)` — the count is the
number of `ContentHit` records, one per file. -/
theorem s3_report :
    find "hello" [entryA] = Except.ok (SearchResult.mk [] (Matched.Exact 0)
      [ContentItem.mk "a.txt" "txt"
        [ContentMatch.mk
          [SContentLine.mk ContentKind.Match 1 (strBytes "Hello World")
            false (some 0) (some 5),
           SContentLine.mk ContentKind.Match 2 (strBytes "hello world")
            false (some 0) (some 5)]]]
      (Matched.Exact 1)) := by
  decide

/-- Claim C3 (code bug): `search.rs` lines 419/422 call
`searcher.search_path(...).unwrap()`, so a per-file error (here: an
unreadable file) panics the worker and aborts the whole search — no report
is produced — whereas without the failing file the same tree yields a
complete report with one content hit. -/
theorem per_file_error_aborts :
    find "a" [entryBad, entryGood] = Except.error SearchErr.ioFail ∧
    (find "a" [entryGood]).toOption.map (fun r => r.content.length) = some 1 :=
  ⟨by decide, by decide⟩

/-- Counterexample for C4: when the file counter's previous value equals
`FILE_MAX_MATCHES` (10) — not strictly below it — a matching filename is
still published. -/
theorem file_publish_counterexample :
    ¬ (stFileCap.file_counter < FILE_MAX_MATCHES) ∧
    (fileStep (DirectMatcher.new "a" true) stFileCap entryNameHit).fileItems =
      [FileItem.mk "a.bin" "bin"] :=
  ⟨by decide, by decide⟩

/-- Counterexample for C5: a line of exactly 140 bytes is truncated
(`truncated = true`, bytes 120..122 replaced by `"..."`), although the claim
says lines of length 140 or less are preserved verbatim. -/
theorem truncation_boundary_counterexample :
    ¬ ((List.replicate 140 97).length > 140) ∧
    (Res.ContentLine.new ContentKind.Match 1 (List.replicate 140 97)).truncated
      = true ∧
    (Res.ContentLine.new ContentKind.Match 1 (List.replicate 140 97)).bytes ≠
      List.replicate 140 97 :=
  ⟨by decide, by decide, by decide⟩

/-- Claim C5 as amended: truncation applies exactly when the raw byte length
is at least `MAX_LENGTH = 140` — the stored bytes are then
`bytes[0..120] ++ "..." ++ bytes[len-17..len]`, of length exactly 140, with
`truncated = true`; lines shorter than 140 bytes are preserved verbatim with
`truncated = false`. -/
theorem truncation_rule : ∀ (k : ContentKind) (n : Nat) (b : List Nat),
    (b.length < Res.MAX_LENGTH →
      Res.ContentLine.new k n b =
        { kind := k, num := n, bytes := b, truncated := false }) ∧
    (Res.MAX_LENGTH ≤ b.length →
      (Res.ContentLine.new k n b).bytes =
        b.take Res.MAX_PREFIX_LENGTH ++ [46, 46, 46] ++
          b.drop (b.length - Res.MAX_SUFFIX_LENGTH) ∧
      (Res.ContentLine.new k n b).truncated = true ∧
      (Res.ContentLine.new k n b).bytes.length = Res.MAX_LENGTH) := by
  intro k n b
  constructor
  · intro hlt
    unfold Res.ContentLine.new
    rw [if_pos hlt]
  · intro hge
    have hge' : 140 ≤ b.length := hge
    have hnlt : ¬ b.length < Res.MAX_LENGTH := Nat.not_lt.mpr hge
    unfold Res.ContentLine.new
    rw [if_neg hnlt]
    refine ⟨rfl, rfl, ?_⟩
    simp only [List.length_append, List.length_take, List.length_drop,
      List.length_cons, List.length_nil]
    simp only [Res.MAX_PREFIX_LENGTH, Res.MAX_SUFFIX_LENGTH, Res.MAX_LENGTH] at hge' ⊢
    omega

/-- Witness for C5's amended rule: a short line is stored verbatim. -/
theorem truncation_rule_witness :
    Res.ContentLine.new ContentKind.Before 3 [1, 2, 3] =
      { kind := ContentKind.Before, num := 3, bytes := [1, 2, 3]
        truncated := false } :=
  (truncation_rule ContentKind.Before 3 [1, 2, 3]).1 (by decide)

/-- Counterexample for C7: when the content counter equals
`CONTENT_MAX_MATCHES` (100) — not strictly below it — a supported file is
still scanned: the counter rises to 101 and a content hit is emitted. -/
theorem content_gate_counterexample :
    ¬ (stContentCap.content_counter < CONTENT_MAX_MATCHES) ∧
    ((contentStep (DirectMatcher.new "a" true) stContentCap entryOneLine).toOption.map
      WalkSt.content_counter = some 101) ∧
    ((contentStep (DirectMatcher.new "a" true) stContentCap entryOneLine).toOption.map
      (fun s => s.contentItems.length) = some 1) :=
  ⟨by decide, by decide, by decide⟩

theorem find_at_case_sensitive {m : DirectMatcher}
    (hml : m.match_lowercase = false) (h : List Nat) :
    m.find_at h = Except.ok (caseSensitiveFind m.pattern h) := by
  unfold DirectMatcher.find_at caseSensitiveFind
  by_cases hgt : m.pattern.length > h.length
  · simp [hgt]
  · simp [hgt, hml]

theorem find_at_ascii_fold {m : DirectMatcher}
    (hml : m.match_lowercase = true) (hasc : m.is_ascii = true) (h : List Nat) :
    m.find_at h = Except.ok (asciiFoldFind m.pattern h) := by
  unfold DirectMatcher.find_at asciiFoldFind
  by_cases hgt : m.pattern.length > h.length
  · simp [hgt]
  · simp [hgt, hml, hasc]

/-- Claim C6 (code bug in one corner, acknowledged by spec §9.3): in literal
mode the case-insensitive branch is selected if and only if every pattern
character is lowercase or ASCII punctuation; a pattern outside the rule
(uppercase letter, digit, space, …) is matched by the exact case-sensitive
scan, and an ASCII pattern inside the rule by the ASCII-case-folded scan.
However — the divergence — a NON-ASCII pattern inside the rule (here `"ñ"`)
selects the case-insensitive branch yet is matched case-sensitively, so
"matching is case-insensitive" fails for it: `"Ñ"` is not matched. -/
theorem smart_case_rule : ∀ (p : String),
    ((DirectMatcher.new p true).match_lowercase = true ↔
      ∀ c ∈ p.data, (rustIsLowercase c || rustIsAsciiPunct c) = true) ∧
    ((DirectMatcher.new p true).match_lowercase = false →
      ∀ h, (DirectMatcher.new p true).find_at h =
        Except.ok (caseSensitiveFind (strBytes p) h)) ∧
    ((DirectMatcher.new p true).match_lowercase = true →
      (DirectMatcher.new p true).is_ascii = true →
      ∀ h, (DirectMatcher.new p true).find_at h =
        Except.ok (asciiFoldFind (strBytes p) h)) ∧
    ((DirectMatcher.new "ñ" true).match_lowercase = true ∧
      (DirectMatcher.new "ñ" true).is_match (strBytes "Ñ") = false) := by
  intro p
  refine ⟨?_, ?_, ?_, by decide, by decide⟩
  · simp [DirectMatcher.new, List.all_eq_true]
  · intro hml h
    exact find_at_case_sensitive hml h
  · intro hml hasc h
    exact find_at_ascii_fold hml hasc h

/-- Witness for C6: the pattern `"Hello"` (uppercase `H`) is matched by the
exact case-sensitive scan. -/
theorem smart_case_rule_witness :
    (DirectMatcher.new "Hello" true).find_at (strBytes "say Hello") =
      Except.ok (caseSensitiveFind (strBytes "Hello") (strBytes "say Hello")) :=
  (smart_case_rule "Hello").2.1 (by decide) (strBytes "say Hello")

theorem processEntry_ok_parts {m : DirectMatcher} {st : WalkSt} {e : Entry}
    {st1 : WalkSt} {q : Bool}
    (h : processEntry m st e = Except.ok (st1, q)) :
    contentStep m (fileStep m st e) e = Except.ok st1 ∧ q = quitStep st1 := by
  unfold processEntry at h
  cases hc : contentStep m (fileStep m st e) e with
  | error er => rw [hc] at h; exact absurd h (by simp)
  | ok st2 =>
    rw [hc] at h
    have h2 := Except.ok.inj h
    rw [Prod.mk.injEq] at h2
    obtain ⟨ha, hb⟩ := h2
    subst ha
    exact ⟨rfl, hb.symm⟩

theorem runSearch_eq_runAll (m : DirectMatcher) :
    ∀ (entries : List Entry) (st stF : WalkSt),
    runSearch m st entries = Except.ok stF →
    stF.file_counter ≤ FILE_MAX_MATCHES ∨
      stF.content_counter ≤ CONTENT_MAX_MATCHES →
    runAll m st entries = Except.ok stF
  | [], _, _, h, _ => h
  | e :: rest, st, stF, h, hc => by
    unfold runSearch at h
    unfold runAll
    cases hp : processEntry m st e with
    | error er => rw [hp] at h; exact absurd h (by simp)
    | ok step =>
      rw [hp] at h
      have h' : (if step.2 = true then Except.ok step.1
          else runSearch m step.1 rest) = Except.ok stF := h
      show runAll m step.1 rest = Except.ok stF
      have hq := (processEntry_ok_parts hp).2
      by_cases hq2 : step.2 = true
      · rw [if_pos hq2] at h'
        have hst := Except.ok.inj h'
        rw [hq] at hq2
        unfold quitStep at hq2
        rw [Bool.and_eq_true, decide_eq_true_eq, decide_eq_true_eq] at hq2
        rw [hst] at hq2
        rcases hc with hc | hc
        · exact absurd hq2.1 (Nat.not_lt.mpr hc)
        · exact absurd hq2.2 (Nat.not_lt.mpr hc)
      · rw [if_neg hq2] at h'
        exact runSearch_eq_runAll m rest step.1 stF h' hc

/-- Claim C8: after each entry the worker returns `Quit` if and only if both
`file_counter > FILE_MAX_MATCHES` and `content_counter > CONTENT_MAX_MATCHES`
hold in the resulting state; consequently, whenever the walk ends with either
counter at or below its cap, it behaved exactly like the walk with no early
termination — no entry was skipped. -/
theorem quit_condition : ∀ (m : DirectMatcher) (st : WalkSt) (e : Entry)
    (entries : List Entry),
    (∀ st1 q, processEntry m st e = Except.ok (st1, q) →
      (q = true ↔ st1.file_counter > FILE_MAX_MATCHES ∧
        st1.content_counter > CONTENT_MAX_MATCHES)) ∧
    (∀ stF, runSearch m st entries = Except.ok stF →
      stF.file_counter ≤ FILE_MAX_MATCHES ∨
        stF.content_counter ≤ CONTENT_MAX_MATCHES →
      runAll m st entries = Except.ok stF) := by
  intro m st e entries
  constructor
  · intro st1 q hp
    rw [(processEntry_ok_parts hp).2]
    unfold quitStep
    rw [Bool.and_eq_true, decide_eq_true_eq, decide_eq_true_eq]
  · intro stF h hc
    exact runSearch_eq_runAll m entries st stF h hc

/-- Witness for C8: a one-entry walk whose counters stay within caps is
identical to the never-quitting walk. -/
theorem quit_condition_witness :
    runAll (DirectMatcher.new "a" true) initSt [entryNameHit] =
      Except.ok (WalkSt.mk 1 0 [FileItem.mk "a.bin" "bin"] []) :=
  (quit_condition (DirectMatcher.new "a" true) initSt entryNameHit
    [entryNameHit]).2 (WalkSt.mk 1 0 [FileItem.mk "a.bin" "bin"] [])
    (by decide) (Or.inr (by decide))

theorem fileStep_inv {m : DirectMatcher} {st : WalkSt} (e : Entry)
    (h1 : st.fileItems.length ≤ FILE_MAX_MATCHES + 1)
    (h2 : st.file_counter ≤ FILE_MAX_MATCHES →
      st.fileItems.length ≤ st.file_counter) :
    (fileStep m st e).fileItems.length ≤ FILE_MAX_MATCHES + 1 ∧
    ((fileStep m st e).file_counter ≤ FILE_MAX_MATCHES →
      (fileStep m st e).fileItems.length ≤ (fileStep m st e).file_counter) := by
  unfold fileStep
  by_cases hm : m.is_match (strBytes e.fname) = true
  · rw [if_pos hm]
    by_cases hp : st.file_counter ≤ FILE_MAX_MATCHES
    · rw [if_pos hp]
      have h3 := h2 hp
      constructor
      · show (st.fileItems ++ [FileItem.mk e.fpath e.ext]).length ≤
          FILE_MAX_MATCHES + 1
        rw [List.length_append]
        simp only [List.length_cons, List.length_nil]
        omega
      · intro hf
        show (st.fileItems ++ [FileItem.mk e.fpath e.ext]).length ≤
          st.file_counter + 1
        rw [List.length_append]
        simp only [List.length_cons, List.length_nil]
        omega
    · rw [if_neg hp]
      refine ⟨h1, fun hf => ?_⟩
      exact absurd (show st.file_counter + 1 ≤ FILE_MAX_MATCHES from hf)
        (by omega)
  · rw [if_neg hm]
    exact ⟨h1, h2⟩

theorem contentStep_file_fields {m : DirectMatcher} {st : WalkSt} {e : Entry}
    {st' : WalkSt} (h : contentStep m st e = Except.ok st') :
    st'.fileItems = st.fileItems ∧ st'.file_counter = st.file_counter := by
  unfold contentStep at h
  by_cases hs : e.extSupported = true
  · rw [if_pos hs] at h
    by_cases hc : st.content_counter ≤ CONTENT_MAX_MATCHES
    · rw [if_pos hc] at h
      cases hsc : scanPath m e.fpath e.ext st.content_counter e.content with
      | error er => rw [hsc] at h; exact absurd h (by simp)
      | ok res =>
        rw [hsc] at h
        rw [← Except.ok.inj h]
        exact ⟨rfl, rfl⟩
    · rw [if_neg hc] at h
      rw [← Except.ok.inj h]
      exact ⟨rfl, rfl⟩
  · rw [if_neg hs] at h
    rw [← Except.ok.inj h]
    exact ⟨rfl, rfl⟩

theorem runSearch_fileItems_bound (m : DirectMatcher) :
    ∀ (entries : List Entry) (st stF : WalkSt),
    st.fileItems.length ≤ FILE_MAX_MATCHES + 1 →
    (st.file_counter ≤ FILE_MAX_MATCHES →
      st.fileItems.length ≤ st.file_counter) →
    runSearch m st entries = Except.ok stF →
    stF.fileItems.length ≤ FILE_MAX_MATCHES + 1
  | [], st, stF, h1, _, h => by
    unfold runSearch at h
    rw [← Except.ok.inj h]
    exact h1
  | e :: rest, st, stF, h1, h2, h => by
    unfold runSearch at h
    cases hp : processEntry m st e with
    | error er => rw [hp] at h; exact absurd h (by simp)
    | ok step =>
      rw [hp] at h
      have h' : (if step.2 = true then Except.ok step.1
          else runSearch m step.1 rest) = Except.ok stF := h
      obtain ⟨g1, g2⟩ := @fileStep_inv m st e h1 h2
      have hcf := contentStep_file_fields (processEntry_ok_parts hp).1
      have k1 : step.1.fileItems.length ≤ FILE_MAX_MATCHES + 1 := by
        rw [hcf.1]; exact g1
      have k2 : step.1.file_counter ≤ FILE_MAX_MATCHES →
          step.1.fileItems.length ≤ step.1.file_counter := by
        rw [hcf.1, hcf.2]; exact g2
      by_cases hq : step.2 = true
      · rw [if_pos hq] at h'
        rw [← Except.ok.inj h']
        exact k1
      · rw [if_neg hq] at h'
        exact runSearch_fileItems_bound m rest step.1 stF k1 k2 h'

/-- Claim C4 as amended: when the filename matches, the counter is always
incremented and a `FileHit` is published exactly when the counter's previous
value was `<= FILE_MAX_MATCHES` (10) — i.e. strictly less than
`FILE_MAX_MATCHES + 1` — so a full walk from the initial state enqueues at
most the first `FILE_MAX_MATCHES + 1 = 11` candidates on the file channel. -/
theorem file_publish_rule : ∀ (m : DirectMatcher) (st : WalkSt) (e : Entry),
    ((fileStep m st e).fileItems.length = st.fileItems.length + 1 ↔
      m.is_match (strBytes e.fname) = true ∧
        st.file_counter ≤ FILE_MAX_MATCHES) ∧
    ((fileStep m st e).file_counter =
      if m.is_match (strBytes e.fname) then st.file_counter + 1
      else st.file_counter) ∧
    (∀ entries stF, runSearch m initSt entries = Except.ok stF →
      stF.fileItems.length ≤ FILE_MAX_MATCHES + 1) := by
  intro m st e
  refine ⟨?_, ?_, ?_⟩
  · unfold fileStep
    by_cases hm : m.is_match (strBytes e.fname) = true
    · rw [if_pos hm]
      by_cases hp : st.file_counter ≤ FILE_MAX_MATCHES
      · rw [if_pos hp]
        constructor
        · intro _; exact ⟨hm, hp⟩
        · intro _
          show (st.fileItems ++ [FileItem.mk e.fpath e.ext]).length =
            st.fileItems.length + 1
          rw [List.length_append]
          simp only [List.length_cons, List.length_nil]
      · rw [if_neg hp]
        constructor
        · intro hx
          exact absurd
            (show st.fileItems.length = st.fileItems.length + 1 from hx)
            (by omega)
        · intro hx; exact absurd hx.2 hp
    · rw [if_neg hm]
      constructor
      · intro hx
        exact absurd
          (show st.fileItems.length = st.fileItems.length + 1 from hx)
          (by omega)
      · intro hx; exact absurd hx.1 hm
  · unfold fileStep
    by_cases hm : m.is_match (strBytes e.fname) = true
    · rw [if_pos hm, if_pos hm]
      by_cases hp : st.file_counter ≤ FILE_MAX_MATCHES
      · rw [if_pos hp]
      · rw [if_neg hp]
    · rw [if_neg hm, if_neg hm]
  · intro entries stF h
    exact runSearch_fileItems_bound m entries initSt stF (by decide)
      (fun _ => by decide) h

/-- Witness for C4's amended rule: a one-entry walk stays within the
`FILE_MAX_MATCHES + 1` bound on the file channel. -/
theorem file_publish_rule_witness :
    (WalkSt.mk 1 0 [FileItem.mk "a.bin" "bin"] []).fileItems.length ≤
      FILE_MAX_MATCHES + 1 :=
  (file_publish_rule (DirectMatcher.new "a" true) initSt entryNameHit).2.2
    [entryNameHit] (WalkSt.mk 1 0 [FileItem.mk "a.bin" "bin"] []) (by decide)

theorem collectorRun_counter_mono (m : DirectMatcher) :
    ∀ (evs : List SinkEvent) (st st' : CollSt),
    collectorRun m st evs = Except.ok st' → st.counter ≤ st'.counter
  | [], st, st', h => by
    unfold collectorRun at h
    rw [← Except.ok.inj h]
  | SinkEvent.matched n b :: rest, st, st', h => by
    unfold collectorRun at h
    cases hf : m.find_at b with
    | error er => rw [hf] at h; exact absurd h (by simp)
    | ok loc =>
      rw [hf] at h
      have hrec := collectorRun_counter_mono m rest _ st' h
      exact Nat.le_trans (Nat.le_succ st.counter) hrec
  | SinkEvent.context k n b :: rest, st, st', h => by
    unfold collectorRun at h
    have hrec := collectorRun_counter_mono m rest _ st' h
    exact hrec
  | SinkEvent.contextBreak :: rest, st, st', h => by
    unfold collectorRun at h
    by_cases hc : st.counter > CONTENT_MAX_MATCHES
    · rw [if_pos hc] at h
      rw [← Except.ok.inj h]
    · rw [if_neg hc] at h
      by_cases he : st.lines.isEmpty = true
      · rw [if_pos he] at h
        exact collectorRun_counter_mono m rest st st' h
      · rw [if_neg he] at h
        exact collectorRun_counter_mono m rest (flushLines st) st' h
  termination_by evs => evs.length

theorem collectorFinish_counter (st : CollSt) :
    (collectorFinish st).1.counter = st.counter := by
  unfold collectorFinish
  by_cases hl : st.lines.isEmpty = true
  · rw [if_pos hl]
    by_cases hm : st.matches'.isEmpty = true
    · rw [if_pos hm]
    · rw [if_neg hm]
  · rw [if_neg hl]
    by_cases hm : (flushLines st).matches'.isEmpty = true
    · rw [if_pos hm]; rfl
    · rw [if_neg hm]; rfl

theorem scanPath_parts {m : DirectMatcher} {path ext : String} {c0 : Nat}
    {content : Except SearchErr (List (List Nat))}
    {res : Nat × Option ContentItem}
    (h : scanPath m path ext c0 content = Except.ok res) :
    ∃ lines flags st, content = Except.ok lines ∧
      lineFlags m lines = Except.ok flags ∧
      collectorRun m (CollSt.mk c0 path ext [] []) (eventsFrom lines flags) =
        Except.ok st ∧
      res = ((collectorFinish st).1.counter, (collectorFinish st).2) := by
  unfold scanPath at h
  cases content with
  | error er => exact absurd h (by simp)
  | ok lines =>
    have h1 : (match lineFlags m lines with
        | Except.error er => Except.error er
        | Except.ok flags =>
          match collectorRun m (CollSt.mk c0 path ext [] [])
              (eventsFrom lines flags) with
          | Except.error er => Except.error er
          | Except.ok st =>
            Except.ok ((collectorFinish st).1.counter, (collectorFinish st).2)) =
        Except.ok res := h
    cases hLf : lineFlags m lines with
    | error er => rw [hLf] at h1; exact absurd h1 (by simp)
    | ok flags =>
      rw [hLf] at h1
      have h2 : (match collectorRun m (CollSt.mk c0 path ext [] [])
            (eventsFrom lines flags) with
          | Except.error er => Except.error er
          | Except.ok st =>
            Except.ok ((collectorFinish st).1.counter, (collectorFinish st).2)) =
          Except.ok res := h1
      cases hcr : collectorRun m (CollSt.mk c0 path ext [] [])
          (eventsFrom lines flags) with
      | error er => rw [hcr] at h2; exact absurd h2 (by simp)
      | ok st =>
        rw [hcr] at h2
        exact ⟨lines, flags, st, rfl, hLf, hcr, (Except.ok.inj h2).symm⟩

theorem scanPath_counter_mono {m : DirectMatcher} {path ext : String}
    {c0 : Nat} {content : Except SearchErr (List (List Nat))}
    {res : Nat × Option ContentItem}
    (h : scanPath m path ext c0 content = Except.ok res) : c0 ≤ res.1 := by
  obtain ⟨lines, flags, st, _, _, hcr, hres⟩ := scanPath_parts h
  have hmono := collectorRun_counter_mono m _ _ _ hcr
  rw [hres]
  rw [collectorFinish_counter st]
  exact hmono

theorem eventsFrom_first_matched (l : List Nat) (ls : List (List Nat))
    (fs : List Bool) :
    eventsFrom (l :: ls) (true :: fs) =
      SinkEvent.matched 1 l ::
        eventsAux (l :: ls) (true :: fs) true
          ((List.range ls.length).map Nat.succ) := by
  unfold eventsFrom
  rw [show (l :: ls).length = ls.length + 1 from rfl, List.range_succ_eq_map]
  have hrel : isRelevant (true :: fs) 0 = true := by simp [isRelevant, flagAt]
  simp [eventsAux, hrel, flagAt]

theorem lineFlags_cons_parts {m : DirectMatcher} {l : List Nat}
    {ls : List (List Nat)} {flags : List Bool}
    (h : lineFlags m (l :: ls) = Except.ok flags) :
    ∃ loc fs, m.find_at l = Except.ok loc ∧ lineFlags m ls = Except.ok fs ∧
      flags = loc.isSome :: fs := by
  unfold lineFlags at h
  cases hf : m.find_at l with
  | error er => rw [hf] at h; exact absurd h (by simp)
  | ok loc =>
    rw [hf] at h
    cases hfs : lineFlags m ls with
    | error er => rw [hfs] at h; exact absurd h (by simp)
    | ok fs =>
      rw [hfs] at h
      have h' : Except.ok (loc.isSome :: fs) = Except.ok flags := h
      exact ⟨loc, fs, rfl, rfl, (Except.ok.inj h').symm⟩

/-- Claim C7 as amended: a content scan is started iff the extension is
supported AND the current content counter is `<= CONTENT_MAX_MATCHES` (100)
— at-or-below the cap, not strictly below it: outside that guard the walk
state is returned untouched; inside it the scan never decreases the counter,
and strictly increases it whenever the file is readable and its first line
matches the pattern. -/
theorem content_gate_rule : ∀ (m : DirectMatcher) (st : WalkSt) (e : Entry),
    (¬ (e.extSupported = true ∧ st.content_counter ≤ CONTENT_MAX_MATCHES) →
      contentStep m st e = Except.ok st) ∧
    (∀ st', contentStep m st e = Except.ok st' →
      st.content_counter ≤ st'.content_counter) ∧
    (e.extSupported = true → st.content_counter ≤ CONTENT_MAX_MATCHES →
      ∀ l ls, e.content = Except.ok (l :: ls) →
      m.is_match l = true →
      ∀ st', contentStep m st e = Except.ok st' →
      st.content_counter < st'.content_counter) := by
  intro m st e
  refine ⟨?_, ?_, ?_⟩
  · intro hng
    unfold contentStep
    by_cases hs : e.extSupported = true
    · rw [if_pos hs]
      by_cases hc : st.content_counter ≤ CONTENT_MAX_MATCHES
      · exact absurd ⟨hs, hc⟩ hng
      · rw [if_neg hc]
    · rw [if_neg hs]
  · intro st' h
    unfold contentStep at h
    by_cases hs : e.extSupported = true
    · rw [if_pos hs] at h
      by_cases hc : st.content_counter ≤ CONTENT_MAX_MATCHES
      · rw [if_pos hc] at h
        cases hsc : scanPath m e.fpath e.ext st.content_counter e.content with
        | error er => rw [hsc] at h; exact absurd h (by simp)
        | ok res =>
          rw [hsc] at h
          rw [← Except.ok.inj h]
          exact scanPath_counter_mono hsc
      · rw [if_neg hc] at h
        rw [← Except.ok.inj h]
    · rw [if_neg hs] at h
      rw [← Except.ok.inj h]
  · intro hs hc l ls hcont hmatch st' h
    unfold contentStep at h
    rw [if_pos hs, if_pos hc] at h
    cases hsc : scanPath m e.fpath e.ext st.content_counter e.content with
    | error er => rw [hsc] at h; exact absurd h (by simp)
    | ok res =>
      rw [hsc] at h
      rw [← Except.ok.inj h]
      show st.content_counter < res.1
      obtain ⟨lines, flags, cst, hlines, hflags, hcr, hres⟩ := scanPath_parts hsc
      rw [hcont] at hlines
      have hl := Except.ok.inj hlines
      subst hl
      obtain ⟨loc, fs, hfind, _, hflagseq⟩ := lineFlags_cons_parts hflags
      have hlocs : loc.isSome = true := by
        unfold DirectMatcher.is_match at hmatch
        rw [hfind] at hmatch
        cases loc with
        | none => simp at hmatch
        | some v => rfl
      rw [hflagseq, hlocs] at hcr
      rw [eventsFrom_first_matched l ls fs] at hcr
      have hcr2 : collectorRun m
          { counter := st.content_counter + 1, path := e.fpath, ext := e.ext,
            lines := [] ++ [SContentLine.new ContentKind.Match 1 l
              (loc.map Prod.fst) (loc.map Prod.snd)],
            matches' := [] }
          (eventsAux (l :: ls) (true :: fs) true
            ((List.range ls.length).map Nat.succ)) = Except.ok cst := by
        unfold collectorRun at hcr
        rw [hfind] at hcr
        exact hcr
      have hmono : st.content_counter + 1 ≤ cst.counter :=
        collectorRun_counter_mono m _ _ _ hcr2
      have hres1 : res.1 = cst.counter := by
        rw [hres]
        exact collectorFinish_counter cst
      rw [hres1]
      omega

/-- Witness for C7's amended rule: an unsupported extension leaves the walk
state untouched. -/
theorem content_gate_rule_witness :
    contentStep (DirectMatcher.new "a" true) initSt entryNameHit =
      Except.ok initSt :=
  (content_gate_rule (DirectMatcher.new "a" true) initSt entryNameHit).1
    (by decide)

theorem headD_mem {l : List Nat} (h : l ≠ []) : l.headD 0 ∈ l := by
  cases l with
  | nil => exact absurd rfl h
  | cons a t => exact List.mem_cons_self a t

theorem collNums_flushLines (st : CollSt) :
    collNums (flushLines st) = collNums st := by
  simp [collNums, flushLines, matchNums, lineNums]

theorem flushLines_ne_nil {st : CollSt}
    (h : ∀ cm ∈ st.matches', cm.lines ≠ [])
    (hl : ¬ st.lines.isEmpty = true) :
    ∀ cm ∈ (flushLines st).matches', cm.lines ≠ [] := by
  intro cm hcm
  unfold flushLines at hcm
  rw [List.mem_append] at hcm
  rcases hcm with hcm | hcm
  · exact h cm hcm
  · have hcm' : cm = ContentMatch.mk (st.lines.reverse.reverse) := by
      simpa using hcm
    subst hcm'
    show ¬ st.lines.reverse.reverse = []
    rw [List.reverse_reverse]
    intro hnil
    rw [hnil] at hl
    exact hl rfl

theorem collectorRun_pairwise (m : DirectMatcher) :
    ∀ (evs : List SinkEvent) (st st' : CollSt),
    (collNums st ++ eventNums evs).Pairwise (· < ·) →
    (∀ cm ∈ st.matches', cm.lines ≠ []) →
    collectorRun m st evs = Except.ok st' →
    (collNums st').Pairwise (· < ·) ∧ ∀ cm ∈ st'.matches', cm.lines ≠ []
  | [], st, st', hp, hne, h => by
    unfold collectorRun at h
    rw [← Except.ok.inj h]
    rw [show eventNums [] = [] from rfl, List.append_nil] at hp
    exact ⟨hp, hne⟩
  | SinkEvent.matched n b :: rest, st, st', hp, hne, h => by
    unfold collectorRun at h
    cases hf : m.find_at b with
    | error er => rw [hf] at h; exact absurd h (by simp)
    | ok loc =>
      rw [hf] at h
      have h2 : collectorRun m
          (CollSt.mk (st.counter + 1) st.path st.ext
            (st.lines ++ [SContentLine.new ContentKind.Match n b
              (Option.map Prod.fst loc) (Option.map Prod.snd loc)])
            st.matches')
          rest = Except.ok st' := h
      refine collectorRun_pairwise m rest _ st' ?_ ?_ h2
      · have heq : collNums (CollSt.mk (st.counter + 1) st.path st.ext
            (st.lines ++ [SContentLine.new ContentKind.Match n b
              (Option.map Prod.fst loc) (Option.map Prod.snd loc)])
            st.matches') = collNums st ++ [n] := by
          simp [collNums, lineNums, SContentLine_new_num]
        rw [heq, List.append_assoc, List.singleton_append]
        exact hp
      · exact hne
  | SinkEvent.context k nn b :: rest, st, st', hp, hne, h => by
    unfold collectorRun at h
    have h2 : collectorRun m
        (CollSt.mk st.counter st.path st.ext
          (st.lines ++ [SContentLine.without_match k nn b]) st.matches')
        rest = Except.ok st' := h
    refine collectorRun_pairwise m rest _ st' ?_ ?_ h2
    · have heq : collNums (CollSt.mk st.counter st.path st.ext
          (st.lines ++ [SContentLine.without_match k nn b]) st.matches') =
          collNums st ++ [nn] := by
        simp [collNums, lineNums, SContentLine.without_match,
          SContentLine_new_num]
      rw [heq, List.append_assoc, List.singleton_append]
      exact hp
    · exact hne
  | SinkEvent.contextBreak :: rest, st, st', hp, hne, h => by
    unfold collectorRun at h
    by_cases hcnt : st.counter > CONTENT_MAX_MATCHES
    · rw [if_pos hcnt] at h
      rw [← Except.ok.inj h]
      exact ⟨(List.pairwise_append.mp hp).1, hne⟩
    · rw [if_neg hcnt] at h
      by_cases hemp : st.lines.isEmpty = true
      · rw [if_pos hemp] at h
        exact collectorRun_pairwise m rest st st' hp hne h
      · rw [if_neg hemp] at h
        refine collectorRun_pairwise m rest (flushLines st) st' ?_
          (flushLines_ne_nil hne hemp) h
        rw [collNums_flushLines]
        exact hp
  termination_by evs => evs.length

theorem collectorFinish_pairwise {st : CollSt} {item : ContentItem}
    (hp : (collNums st).Pairwise (· < ·))
    (hne : ∀ cm ∈ st.matches', cm.lines ≠ [])
    (h : (collectorFinish st).2 = some item) :
    ((item.matches'.map matchNums).flatten).Pairwise (· < ·) ∧
    ∀ cm ∈ item.matches', cm.lines ≠ [] := by
  unfold collectorFinish at h
  by_cases hl : st.lines.isEmpty = true
  · rw [if_pos hl] at h
    by_cases hm : st.matches'.isEmpty = true
    · rw [if_pos hm] at h; exact absurd h (by simp)
    · rw [if_neg hm] at h
      have h' : some (ContentItem.mk st.path st.ext
          (st.matches'.reverse.reverse)) = some item := h
      have hit := Option.some.inj h'
      have hl' : st.lines = [] := List.isEmpty_iff.mp hl
      have hp' : ((st.matches'.map matchNums).flatten).Pairwise (· < ·) := by
        have h3 := hp
        unfold collNums at h3
        rw [hl'] at h3
        rw [show lineNums ([] : List SContentLine) = [] from rfl,
          List.append_nil] at h3
        exact h3
      rw [← hit]
      show ((st.matches'.reverse.reverse.map matchNums).flatten).Pairwise
          (· < ·) ∧
        ∀ cm ∈ st.matches'.reverse.reverse, cm.lines ≠ []
      rw [List.reverse_reverse]
      exact ⟨hp', hne⟩
  · rw [if_neg hl] at h
    by_cases hm : (flushLines st).matches'.isEmpty = true
    · rw [if_pos hm] at h; exact absurd h (by simp)
    · rw [if_neg hm] at h
      have h' : some (ContentItem.mk (flushLines st).path (flushLines st).ext
          ((flushLines st).matches'.reverse.reverse)) = some item := h
      have hit := Option.some.inj h'
      have hp2 : (collNums (flushLines st)).Pairwise (· < ·) := by
        rw [collNums_flushLines]; exact hp
      have hne2 := flushLines_ne_nil hne hl
      have hp2' : (((flushLines st).matches'.map matchNums).flatten).Pairwise
          (· < ·) := by
        have h3 := hp2
        unfold collNums at h3
        rw [show lineNums (flushLines st).lines = [] from rfl,
          List.append_nil] at h3
        exact h3
      rw [← hit]
      show (((flushLines st).matches'.reverse.reverse.map
          matchNums).flatten).Pairwise (· < ·) ∧
        ∀ cm ∈ (flushLines st).matches'.reverse.reverse, cm.lines ≠ []
      rw [List.reverse_reverse]
      exact ⟨hp2', hne2⟩

theorem pairwise_first_of_flatten {L : List ContentMatch}
    (h : ((L.map matchNums).flatten).Pairwise (· < ·))
    (hne : ∀ cm ∈ L, cm.lines ≠ []) :
    (L.map firstLineNum).Pairwise (· < ·) ∧
    ∀ cm ∈ L, (matchNums cm).Pairwise (· < ·) := by
  rw [List.pairwise_flatten] at h
  obtain ⟨hEach, hCross⟩ := h
  constructor
  · rw [List.pairwise_map]
    rw [List.pairwise_map] at hCross
    refine List.Pairwise.imp_of_mem ?_ hCross
    intro a b ha hb hab
    have hna : matchNums a ≠ [] := by
      simpa [matchNums, lineNums] using hne a ha
    have hnb : matchNums b ≠ [] := by
      simpa [matchNums, lineNums] using hne b hb
    exact hab _ (headD_mem hna) _ (headD_mem hnb)
  · intro cm hcm
    exact hEach _ (List.mem_map_of_mem _ hcm)

/-- Claim C9: assuming the scanner delivers events with strictly ascending
line numbers, the `ContentItem` emitted by the collector satisfies the
ordering invariant — the first line numbers of its matches are strictly
ascending, and within each `ContentMatch` the lines keep their append order,
with strictly ascending line numbers. -/
theorem collector_ordering : ∀ (m : DirectMatcher) (path ext : String)
    (c0 : Nat) (evs : List SinkEvent),
    (eventNums evs).Pairwise (· < ·) →
    ∀ st' item,
    collectorRun m (CollSt.mk c0 path ext [] []) evs = Except.ok st' →
    (collectorFinish st').2 = some item →
    (item.matches'.map firstLineNum).Pairwise (· < ·) ∧
    ∀ cm ∈ item.matches',
      (cm.lines.map SContentLine.num).Pairwise (· < ·) := by
  intro m path ext c0 evs hasc st' item hrun hfin
  have hinv := collectorRun_pairwise m evs (CollSt.mk c0 path ext [] []) st'
    (by
      rw [show collNums (CollSt.mk c0 path ext [] []) = [] from rfl,
        List.nil_append]
      exact hasc)
    (by intro cm hcm; exact absurd hcm (List.not_mem_nil cm))
    hrun
  have hfin' := collectorFinish_pairwise hinv.1 hinv.2 hfin
  have hconc := pairwise_first_of_flatten hfin'.1 hfin'.2
  exact ⟨hconc.1, fun cm hcm => hconc.2 cm hcm⟩

/-- Witness for C9: two ascending matched events produce a hit whose single
group has ascending line numbers. -/
theorem collector_ordering_witness :
    ((ContentItem.mk "p" "txt" [ContentMatch.mk
      [SContentLine.mk ContentKind.Match 1 [97] false (some 0) (some 1),
       SContentLine.mk ContentKind.Match 2 [97] false (some 0) (some 1)]]
      ).matches'.map firstLineNum).Pairwise (· < ·) ∧
    ∀ cm ∈ (ContentItem.mk "p" "txt" [ContentMatch.mk
      [SContentLine.mk ContentKind.Match 1 [97] false (some 0) (some 1),
       SContentLine.mk ContentKind.Match 2 [97] false (some 0) (some 1)]]
      ).matches',
      (cm.lines.map SContentLine.num).Pairwise (· < ·) :=
  collector_ordering (DirectMatcher.new "a" true) "p" "txt" 0
    [SinkEvent.matched 1 [97], SinkEvent.matched 2 [97]] (by decide)
    (CollSt.mk 2 "p" "txt"
      [SContentLine.mk ContentKind.Match 1 [97] false (some 0) (some 1),
       SContentLine.mk ContentKind.Match 2 [97] false (some 0) (some 1)] [])
    (ContentItem.mk "p" "txt" [ContentMatch.mk
      [SContentLine.mk ContentKind.Match 1 [97] false (some 0) (some 1),
       SContentLine.mk ContentKind.Match 2 [97] false (some 0) (some 1)]])
    (by decide) (by decide)
